import Mathlib

/-
Verification of dir/dircache/proxied.go (upspin): a shallow embedding of
the proxied-directory watch registry, the watcher loop, the watch session,
and the event filter, together with theorems about the spec's claims.

External collaborators (path parser, Access-file classifier, LRU cache,
change log, directory-server transport) are modelled by their contracts:
the path parser and the LRU/Access queries are function parameters, and the
change log is an effect trace recording wipe / append / flush calls in
order.  The watcher's interaction with the network is modelled by a session
script: each script element says how one call to watch() plays out (bind
failure, Watch-call failure, or an established stream delivering a list of
events and then ending with the die signal or a closed stream).
-/

/-- upspin.PathName. -/
abbrev PathName := String

/-- upspin.UserName. -/
abbrev UserName := String

/-- upspin.Endpoint: opaque, equality-comparable server address. -/
abbrev Endpoint := String

/-- A clock reading, for the atime field. -/
abbrev Timestamp := Nat

/-- Go error values as the watcher observes them: the distinguished
upspin.ErrNotSupported sentinel (compared by identity in the source), or an
ordinary error carrying a message. -/
inductive GoError where
  | notSupported
  | err (msg : String)
deriving DecidableEq

/-- err.Error(): the message of an error.  upspin.ErrNotSupported is
errors.Str("not supported"). -/
def GoError.message : GoError → String
  | .notSupported => "not supported"
  | .err m => m

/-- Character-list version of the test that the first list starts the
second. -/
def leadsWith : List Char → List Char → Bool
  | [], _ => true
  | _ :: _, [] => false
  | a :: as, b :: bs => a == b && leadsWith as bs

/-- Does pat occur in the character list, starting at any position? -/
def containsFrom (pat : List Char) : List Char → Bool
  | [] => pat.isEmpty
  | c :: rest => leadsWith pat (c :: rest) || containsFrom pat rest

/-- strings.Contains(s, pat). -/
def strContains (s pat : String) : Bool := containsFrom pat.toList s.toList

/-- upspin.DirEntry, restricted to the field the watcher reads. -/
structure DirEntry where
  name : PathName
deriving DecidableEq

/-- upspin.Event: Entry, Order, Delete, Error. -/
structure Event where
  entry : DirEntry
  order : Int
  delete : Bool
  error : Option GoError
deriving DecidableEq

/-- The clog request operations the watcher emits (lookupReq / deleteReq). -/
inductive Request where
  | lookupReq
  | deleteReq
deriving DecidableEq

/-- One observable call on the change-log collaborator. -/
inductive ClogOp where
  | wipe (u : UserName)
  | append (op : Request) (name : PathName) (order : Int)
  | flushOp
deriving DecidableEq

/-- The change-log effect trace, most recent call first. -/
abbrev ClogTrace := List ClogOp

/-- clog.wipeLog(user): recorded on the trace. -/
def wipeLog (t : ClogTrace) (u : UserName) : ClogTrace := ClogOp.wipe u :: t

/-- clog.logRequestWithOrder(op, name, nil, entry, order): recorded on the
trace with the fields the claims mention. -/
def logRequestWithOrder (t : ClogTrace) (op : Request) (name : PathName)
    (order : Int) : ClogTrace :=
  ClogOp.append op name order :: t

/-- clog.flush(): recorded on the trace. -/
def flush (t : ClogTrace) : ClogTrace := ClogOp.flushOp :: t

/-- lruKey{name, glob} from clog. -/
structure LruKey where
  name : PathName
  glob : Bool
deriving DecidableEq

/-- The query-side collaborators of handleEvent: access.IsAccessFile,
path.DropPath(·, 1), and whether d.l.lru.Get finds the key. -/
structure Collaborators where
  isAccessFile : PathName → Bool
  dropPathOne : PathName → PathName
  lruHas : LruKey → Bool

/-- The mutable per-watcher state of a proxiedDir: order (the cursor),
retryInterval, and the change-log trace produced so far. -/
structure ProxiedDirState where
  order : Int
  retryInterval : Nat
  clog : ClogTrace
deriving DecidableEq

/-- time.Second in nanoseconds. -/
def second : Nat := 1000000000

/-- initialRetryInterval = 10 * time.Second. -/
def initialRetryInterval : Nat := 10 * second

/-- maxRetryInterval = time.Minute. -/
def maxRetryInterval : Nat := 60 * second

/-- Lines 181-184: retryInterval *= 2, clamped at maxRetryInterval. -/
def nextRetryInterval (n : Nat) : Nat :=
  let d := n * 2
  if d > maxRetryInterval then maxRetryInterval else d

/-- The early-return filter of handleEvent (lines 235-248): true exactly
when the event is dropped.  Mirrors the nested ifs of the source: not an
Access file, no exact non-glob LRU entry, and either the name is its own
one-level parent or there is no glob LRU entry for that parent. -/
def irrelevant (c : Collaborators) (e : Event) : Bool :=
  if c.isAccessFile e.entry.name then false
  else if c.lruHas { name := e.entry.name, glob := false } then false
  else
    let dirName := c.dropPathOne e.entry.name
    if dirName = e.entry.name then true
    else if c.lruHas { name := dirName, glob := true } then false
    else true

/-- proxiedDir.handleEvent (lines 221-259).  Returns the new state and the
error returned to watch(); the state is unchanged when an error comes back. -/
def handleEvent (c : Collaborators) (user : UserName) (s : ProxiedDirState)
    (e : Event) : ProxiedDirState × Option GoError :=
  match e.error with
  | some err => (s, some err)
  | none =>
    let s1 := if s.order = -1 then { s with clog := wipeLog s.clog user } else s
    if irrelevant c e then (s1, none)
    else
      let op := if e.delete then Request.deleteReq else Request.lookupReq
      let s2 := { s1 with order := e.order }
      ({ s2 with clog := flush (logRequestWithOrder s2.clog op e.entry.name e.order) },
        none)

/-- How the select loop of watch() ends once the stream is established:
either d.die fires (watch returns nil), or the event channel is closed. -/
inductive StreamEnd where
  | dieSignal
  | streamClosed
deriving DecidableEq

/-- A script for one call to watch(): bind.DirServer fails, dir.Watch
fails, or the stream is established and delivers the listed events before
ending as described. -/
inductive SessionScript where
  | bindFail (e : GoError)
  | watchFail (e : GoError)
  | streamed (events : List Event) (fin : StreamEnd)

/-- The select loop of watch() (lines 206-218): feed events through
handleEvent until one returns an error, then the stream end decides the
result: die yields nil, a closed channel yields the stream-closed error. -/
def watchEvents (c : Collaborators) (u : UserName) :
    ProxiedDirState → List Event → StreamEnd → ProxiedDirState × Option GoError
  | s, [], .dieSignal => (s, none)
  | s, [], .streamClosed => (s, some (GoError.err "Watch event stream closed"))
  | s, e :: rest, fin =>
    match handleEvent c u s e with
    | (s1, none) => watchEvents c u s1 rest fin
    | (s1, some err) => (s1, some err)

/-- proxiedDir.watch (lines 190-219): bind, start the Watch, reset the
retry interval on success, then pump events.  (The done channel closed on
every return path has no observable effect in this model.) -/
def watch (c : Collaborators) (u : UserName) (s : ProxiedDirState) :
    SessionScript → ProxiedDirState × Option GoError
  | .bindFail e => (s, some e)
  | .watchFail e => (s, some e)
  | .streamed evs fin =>
    watchEvents c u { s with retryInterval := initialRetryInterval } evs fin

/-- Watcher entry (lines 156-160): if order == 0 request a full reread,
and start from the initial retry interval. -/
def watcherInit (s : ProxiedDirState) : ProxiedDirState :=
  let s1 := if s.order = 0 then { s with order := -1 } else s
  { s1 with retryInterval := initialRetryInterval }

/-- Error handling of the watcher loop (lines 174-177): a message
containing "cannot read log at order" resets the cursor to -1. -/
def watcherOnError (s : ProxiedDirState) (err : GoError) : ProxiedDirState :=
  if strContains err.message "cannot read log at order" then { s with order := -1 }
  else s

/-- How the watcher loop ends relative to a finite script list: watch
returned nil (told to die), the unsupported sentinel was returned, or the
scripts ran out with the loop still going. -/
inductive LoopExit where
  | cleanExit
  | notSupportedExit
  | ranOut
deriving DecidableEq

/-- The for loop of proxiedDir.watcher (lines 161-185), accumulating the
sleep durations taken (time.Sleep(d.retryInterval)) in order. -/
def watcherLoop (c : Collaborators) (u : UserName) :
    ProxiedDirState → List SessionScript → List Nat →
      ProxiedDirState × List Nat × LoopExit
  | s, [], acc => (s, acc.reverse, LoopExit.ranOut)
  | s, sc :: rest, acc =>
    match watch c u s sc with
    | (s1, none) => (s1, acc.reverse, LoopExit.cleanExit)
    | (s1, some err) =>
      if err = GoError.notSupported then (s1, acc.reverse, LoopExit.notSupportedExit)
      else
        let s2 := watcherOnError s1 err
        let s3 := { s2 with retryInterval := nextRetryInterval s2.retryInterval }
        watcherLoop c u s3 rest (s2.retryInterval :: acc)

/-- proxiedDir.watcher (lines 150-186): entry steps then the retry loop. -/
def watcher (c : Collaborators) (u : UserName) (s : ProxiedDirState)
    (scripts : List SessionScript) : ProxiedDirState × List Nat × LoopExit :=
  watcherLoop c u (watcherInit s) scripts []

/-- The i-th retry sleep when every session fails before establishing:
10 s doubling and clamped at 60 s. -/
def backoffSeq (i : Nat) : Nat := min (10 * 2 ^ i) 60 * second

/-- The claim's relevance condition, written from the spec's words: the
event names an Access file, or the cache holds an exact non-glob entry for
the name, or the cache holds a glob entry for the one-level parent (a name
that is its own one-level parent has no parent). -/
def specRelevant (c : Collaborators) (e : Event) : Bool :=
  c.isAccessFile e.entry.name ||
    c.lruHas { name := e.entry.name, glob := false } ||
    (decide (c.dropPathOne e.entry.name ≠ e.entry.name) &&
      c.lruHas { name := c.dropPathOne e.entry.name, glob := true })

/-- The registry-visible fields of a proxiedDir: endpoint, atime, order,
and whether die is non-nil (a watcher goroutine has been started and not
yet torn down).  The l pointer and the user key are implicit. -/
structure ProxiedDirRec where
  ep : Endpoint
  atime : Timestamp
  order : Int
  hasWatcher : Bool
deriving DecidableEq

/-- The observable watcher lifecycle events of the registry, in the order
they happen: a close(die)/<-dying handshake completing, and a
go d.watcher(ep) launch. -/
inductive RegEvent where
  | watcherStopped (u : UserName)
  | watcherStarted (u : UserName)
deriving DecidableEq

/-- proxiedDirs: the closing flag and the user map, plus the chronological
trace of watcher lifecycle events (earliest first).  Every public
operation runs under the single mutex, so each is one atomic step. -/
structure RegistryState where
  closing : Bool
  m : List (UserName × ProxiedDirRec)
  trace : List RegEvent
deriving DecidableEq

/-- p.m[u]: first binding for the key. -/
def lookupUser : List (UserName × ProxiedDirRec) → UserName → Option ProxiedDirRec
  | [], _ => none
  | (v, r) :: rest, u => if v = u then some r else lookupUser rest u

/-- p.m[u] = d: replace the first binding for the key, or append. -/
def insertUser : List (UserName × ProxiedDirRec) → UserName → ProxiedDirRec →
    List (UserName × ProxiedDirRec)
  | [], u, r => [(u, r)]
  | (v, r0) :: rest, u, r =>
    if v = u then (v, r) :: rest else (v, r0) :: insertUser rest u r

/-- proxiedDir.close (lines 136-142): if die is non-nil, close it, wait
for dying to close (recorded as a watcherStopped event), and clear die. -/
def dirClose (u : UserName) (r : ProxiedDirRec) (tr : List RegEvent) :
    ProxiedDirRec × List RegEvent :=
  if r.hasWatcher then
    ({ r with hasWatcher := false }, tr ++ [RegEvent.watcherStopped u])
  else (r, tr)

/-- Lines 98-110 of proxyFor: stamp atime, and if no watcher is running
allocate die/dying and start one (recorded as a watcherStarted event). -/
def proxyForFinish (now : Timestamp) (p : RegistryState) (u : UserName)
    (d : ProxiedDirRec) (tr : List RegEvent) : RegistryState :=
  let d1 := { d with atime := now }
  if d1.hasWatcher then
    { closing := p.closing, m := insertUser p.m u d1, trace := tr }
  else
    { closing := p.closing,
      m := insertUser p.m u { d1 with hasWatcher := true },
      trace := tr ++ [RegEvent.watcherStarted u] }

/-- proxiedDirs.proxyFor (lines 72-111).  The path parser is the external
collaborator parse. -/
def proxyFor (parse : PathName → Option UserName) (now : Timestamp)
    (p : RegistryState) (name : PathName) (ep : Endpoint) : RegistryState :=
  if p.closing then p
  else
    match parse name with
    | none => p
    | some u =>
      match lookupUser p.m u with
      | some d =>
        if d.ep ≠ ep then
          let (d1, tr1) := dirClose u d p.trace
          proxyForFinish now p u { d1 with ep := ep } tr1
        else proxyForFinish now p u d p.trace
      | none =>
        proxyForFinish now p u
          { ep := ep, atime := 0, order := 0, hasWatcher := false } p.trace

/-- proxiedDirs.setOrder (lines 114-133). -/
def setOrder (parse : PathName → Option UserName) (p : RegistryState)
    (name : PathName) (order : Int) : RegistryState :=
  if p.closing then p
  else
    match parse name with
    | none => p
    | some u =>
      let d : ProxiedDirRec :=
        match lookupUser p.m u with
        | none => { ep := "", atime := 0, order := 0, hasWatcher := false }
        | some d => d
      { p with m := insertUser p.m u { d with order := order } }

/-- The range loop of proxiedDirs.close: d.close() on every record. -/
def closeAll (tr : List RegEvent) :
    List (UserName × ProxiedDirRec) →
      List (UserName × ProxiedDirRec) × List RegEvent
  | [] => ([], tr)
  | (u, r) :: rest =>
    let (r1, tr1) := dirClose u r tr
    let (rest1, tr2) := closeAll tr1 rest
    ((u, r1) :: rest1, tr2)

/-- proxiedDirs.close (lines 59-69): idempotent, sets closing, closes
every watcher. -/
def proxiedDirsClose (p : RegistryState) : RegistryState :=
  if p.closing then p
  else
    let (m1, tr1) := closeAll p.trace p.m
    { closing := true, m := m1, trace := tr1 }

/-- Number of watcherStarted u events on a trace. -/
def startsFor (u : UserName) : List RegEvent → Nat
  | [] => 0
  | ev :: tr =>
    (if ev = RegEvent.watcherStarted u then 1 else 0) + startsFor u tr

/-- Number of watcherStopped u events on a trace. -/
def stopsFor (u : UserName) : List RegEvent → Nat
  | [] => 0
  | ev :: tr =>
    (if ev = RegEvent.watcherStopped u then 1 else 0) + stopsFor u tr

/-- 1 when the registry holds a record for u whose die is non-nil. -/
def watcherCount (m : List (UserName × ProxiedDirRec)) (u : UserName) : Nat :=
  match lookupUser m u with
  | some r => if r.hasWatcher then 1 else 0
  | none => 0

/-- The user map binds each user at most once. -/
def keysOK (m : List (UserName × ProxiedDirRec)) : Prop :=
  List.Pairwise (fun a b => a.1 ≠ b.1) m

/-- The trace accounts for the running watchers: for every user the
started events exceed the stopped events by exactly the number of running
watchers recorded in the map. -/
def traceWF (p : RegistryState) : Prop :=
  ∀ u, startsFor u p.trace = stopsFor u p.trace + watcherCount p.m u

/-- Well-formed registry state. -/
def RegWF (p : RegistryState) : Prop := keysOK p.m ∧ traceWF p

/-- A record after its watcher has been torn down. -/
def clearWatcher (r : ProxiedDirRec) : ProxiedDirRec := { r with hasWatcher := false }

/-- A concrete path parser for witnesses: the user component of the two
paths the witnesses use. -/
def parse0 : PathName → Option UserName := fun n =>
  if n = "alice@x/foo" then some "alice@x"
  else if n = "bob@y/f" then some "bob@y"
  else none

/-- Concrete collaborators with an empty cache and no Access files;
DropPath(·, 1) maps alice@x/f to its parent alice@x. -/
def c0 : Collaborators :=
  { isAccessFile := fun _ => false
    dropPathOne := fun n => if n = "alice@x/f" then "alice@x" else n
    lruHas := fun _ => false }

/-- Concrete collaborators where every name is an Access file, so every
event is relevant. -/
def c1 : Collaborators :=
  { isAccessFile := fun _ => true
    dropPathOne := fun n => n
    lruHas := fun _ => false }

/-- A concrete error-free event that c0 classifies as irrelevant. -/
def e0 : Event := { entry := { name := "alice@x/f" }, order := 5, delete := false, error := none }

/-- A concrete error-free event that c1 classifies as relevant. -/
def e1 : Event := { entry := { name := "alice@x/foo" }, order := 42, delete := false, error := none }

/-- A concrete event carrying an error. -/
def e2 : Event :=
  { entry := { name := "alice@x/foo" }, order := 9, delete := false,
    error := some (GoError.err "permission denied") }

/-- A watcher state mid-reread: cursor at the sentinel -1. -/
def s0 : ProxiedDirState := { order := -1, retryInterval := 0, clog := [] }

/-- A watcher state with an ordinary cursor. -/
def s1 : ProxiedDirState := { order := 7, retryInterval := 0, clog := [] }

/-- A registry that is already closing and knows one record for alice@x
with atime 0. -/
def pC : RegistryState :=
  { closing := true
    m := [("alice@x", { ep := "E1", atime := 0, order := 0, hasWatcher := false })]
    trace := [] }

/-- The freshly created registry: newProxiedDirs. -/
def reg0 : RegistryState := { closing := false, m := [], trace := [] }

theorem handleEvent_retryInterval (c : Collaborators) (u : UserName)
    (s : ProxiedDirState) (e : Event) :
    (handleEvent c u s e).1.retryInterval = s.retryInterval := by
  unfold handleEvent
  rcases e with ⟨en, o, del, err⟩
  cases err
  · simp only []
    split <;> split <;> rfl
  · rfl

theorem watchEvents_retryInterval (c : Collaborators) (u : UserName) :
    ∀ (evs : List Event) (s : ProxiedDirState) (fin : StreamEnd),
      (watchEvents c u s evs fin).1.retryInterval = s.retryInterval := by
  intro evs
  induction evs with
  | nil => intro s fin; cases fin <;> rfl
  | cons e rest ih =>
    intro s fin
    have h := handleEvent_retryInterval c u s e
    unfold watchEvents
    rcases hh : handleEvent c u s e with ⟨s1, res⟩
    cases res with
    | none => simpa using (ih s1 fin).trans (by rw [hh] at h; simpa using h)
    | some err => simp; rw [hh] at h; simpa using h

theorem next_backoff (i : Nat) :
    nextRetryInterval (backoffSeq i) = backoffSeq (i + 1) := by
  match i with
  | 0 => decide
  | 1 => decide
  | 2 => decide
  | j + 3 =>
    have h1 : (1 : Nat) ≤ 2 ^ j := Nat.one_le_two_pow
    have h2 : 60 ≤ 10 * 2 ^ (j + 3) := by
      have : 2 ^ (j + 3) = 2 ^ j * 8 := by rw [pow_add]; norm_num
      rw [this]
      calc (60 : Nat) ≤ 10 * 8 := by norm_num
        _ ≤ 10 * (2 ^ j * 8) := by
              exact Nat.mul_le_mul_left 10 (le_mul_of_one_le_left (by norm_num) h1)
    have h3 : 60 ≤ 10 * 2 ^ (j + 4) := by
      have e : 2 ^ (j + 4) = 2 ^ (j + 3) * 2 := by rw [pow_succ]
      have e2 : 10 * 2 ^ (j + 4) = 10 * 2 ^ (j + 3) * 2 := by
        rw [e, Nat.mul_assoc]
      omega
    have e1 : backoffSeq (j + 3) = 60 * second := by
      unfold backoffSeq; rw [Nat.min_eq_right h2]
    have e2 : backoffSeq (j + 4) = 60 * second := by
      unfold backoffSeq; rw [Nat.min_eq_right h3]
    rw [e1]
    show nextRetryInterval (60 * second) = backoffSeq (j + 3 + 1)
    rw [show j + 3 + 1 = j + 4 from rfl, e2]
    decide

theorem backoffSeq_zero : backoffSeq 0 = initialRetryInterval := by decide

theorem backoffSeq_ge_initial (i : Nat) : initialRetryInterval ≤ backoffSeq i := by
  unfold backoffSeq initialRetryInterval
  have h1 : (1 : Nat) ≤ 2 ^ i := Nat.one_le_two_pow
  have : (10 : Nat) ≤ min (10 * 2 ^ i) 60 := by
    refine le_min ?_ (by norm_num)
    exact Nat.le_mul_of_pos_right 10 (by positivity)
  exact Nat.mul_le_mul_right second this

theorem watcherOnError_retryInterval (s : ProxiedDirState) (err : GoError) :
    (watcherOnError s err).retryInterval = s.retryInterval := by
  unfold watcherOnError; split <;> rfl

theorem watcherOnError_clog (s : ProxiedDirState) (err : GoError) :
    (watcherOnError s err).clog = s.clog := by
  unfold watcherOnError; split <;> rfl

theorem watcherLoop_bindFail (c : Collaborators) (u : UserName) (msg : String) :
    ∀ (k j : Nat) (s : ProxiedDirState) (acc : List Nat),
      s.retryInterval = backoffSeq j →
      (watcherLoop c u s (List.replicate k (SessionScript.bindFail (GoError.err msg))) acc).2.1
          = acc.reverse ++ (List.range k).map (fun i => backoffSeq (j + i))
        ∧ (watcherLoop c u s (List.replicate k (SessionScript.bindFail (GoError.err msg))) acc).2.2
          = LoopExit.ranOut := by
  intro k
  induction k with
  | zero => intro j s acc h; simp [watcherLoop]
  | succ k ih =>
    intro j s acc h
    rw [List.replicate_succ]
    have hne : ¬(GoError.err msg = GoError.notSupported) := by simp
    unfold watcherLoop
    simp only [watch, hne, if_false, reduceCtorEq, if_neg, not_false_iff]
    have hri : (watcherOnError s (GoError.err msg)).retryInterval = backoffSeq j := by
      rw [watcherOnError_retryInterval, h]
    have hni : nextRetryInterval (watcherOnError s (GoError.err msg)).retryInterval
        = backoffSeq (j + 1) := by rw [hri, next_backoff]
    have := ih (j + 1)
      { watcherOnError s (GoError.err msg) with
        retryInterval := nextRetryInterval (watcherOnError s (GoError.err msg)).retryInterval }
      ((watcherOnError s (GoError.err msg)).retryInterval :: acc) hni
    refine ⟨?_, this.2⟩
    rw [this.1, hri]
    rw [List.reverse_cons, List.range_succ_eq_map, List.map_cons, List.map_map]
    have hfun : ((fun i => backoffSeq (j + i)) ∘ Nat.succ) = fun i => backoffSeq (j + 1 + i) := by
      funext i
      show backoffSeq (j + Nat.succ i) = backoffSeq (j + 1 + i)
      congr 1
      omega
    rw [hfun]
    simp

theorem sum_backoff_ge (n : Nat) :
    n * initialRetryInterval ≤ ((List.range n).map backoffSeq).sum := by
  induction n with
  | zero => simp
  | succ n ih =>
    rw [List.range_succ, List.map_append, List.sum_append, Nat.succ_mul]
    simp only [List.map_cons, List.map_nil, List.sum_cons, List.sum_nil]
    have := backoffSeq_ge_initial n
    omega

theorem lookupUser_insertUser_self (u : UserName) (r : ProxiedDirRec) :
    ∀ m : List (UserName × ProxiedDirRec), lookupUser (insertUser m u r) u = some r := by
  intro m
  induction m with
  | nil => simp [insertUser, lookupUser]
  | cons hd rest ih =>
    rcases hd with ⟨v, r0⟩
    by_cases h : v = u
    · simp [insertUser, lookupUser, h]
    · simp [insertUser, lookupUser, h, ih]

theorem lookupUser_insertUser_ne (u v : UserName) (r : ProxiedDirRec) (h : v ≠ u) :
    ∀ m : List (UserName × ProxiedDirRec),
      lookupUser (insertUser m u r) v = lookupUser m v := by
  intro m
  induction m with
  | nil => simp [insertUser, lookupUser, Ne.symm h]
  | cons hd rest ih =>
    rcases hd with ⟨w, r0⟩
    by_cases hw : w = u
    · subst hw
      simp [insertUser, lookupUser, Ne.symm h]
    · by_cases hv : w = v
      · subst hv
        simp [insertUser, lookupUser, hw]
      · simp [insertUser, lookupUser, hw, hv, ih]

theorem mem_insertUser (u : UserName) (r : ProxiedDirRec) :
    ∀ (m : List (UserName × ProxiedDirRec)) (b : UserName × ProxiedDirRec),
      b ∈ insertUser m u r → b.1 = u ∨ b.1 ∈ m.map Prod.fst := by
  intro m
  induction m with
  | nil =>
    intro b hb
    have hbe : b = (u, r) := by simpa [insertUser] using hb
    left; rw [hbe]
  | cons hd rest ih =>
    intro b hb
    rcases hd with ⟨v, r0⟩
    by_cases h : v = u
    · simp only [insertUser, if_pos h] at hb
      rcases List.mem_cons.mp hb with hb | hb
      · left; rw [hb]; exact h
      · right
        rw [List.map_cons]
        exact List.mem_cons_of_mem _ (List.mem_map_of_mem Prod.fst hb)
    · simp only [insertUser, if_neg h] at hb
      rcases List.mem_cons.mp hb with hb | hb
      · right; rw [hb, List.map_cons]; exact List.mem_cons_self _ _
      · rcases ih b hb with h1 | h1
        · left; exact h1
        · right; rw [List.map_cons]; exact List.mem_cons_of_mem _ h1

theorem keysOK_insertUser (u : UserName) (r : ProxiedDirRec) :
    ∀ m : List (UserName × ProxiedDirRec), keysOK m → keysOK (insertUser m u r) := by
  intro m
  induction m with
  | nil => intro _; simp [insertUser, keysOK]
  | cons hd rest ih =>
    intro hOK
    rcases hd with ⟨v, r0⟩
    have hOK2 : List.Pairwise (fun a b => a.1 ≠ b.1) ((v, r0) :: rest) := hOK
    rcases List.pairwise_cons.mp hOK2 with ⟨hhd, htl⟩
    by_cases h : v = u
    · subst h
      show List.Pairwise (fun a b => a.1 ≠ b.1) (insertUser ((v, r0) :: rest) v r)
      simp only [insertUser, if_pos rfl]
      exact List.pairwise_cons.mpr ⟨fun b hb => hhd b hb, htl⟩
    · show List.Pairwise (fun a b => a.1 ≠ b.1) (insertUser ((v, r0) :: rest) u r)
      simp only [insertUser, if_neg h]
      refine List.pairwise_cons.mpr ⟨?_, ih htl⟩
      intro b hb
      rcases mem_insertUser u r rest b hb with h1 | h1
      · rw [h1]; exact h
      · rcases List.mem_map.mp h1 with ⟨a, ha, hae⟩
        intro hc
        exact hhd a ha (hc.trans hae.symm)

theorem startsFor_append (u : UserName) :
    ∀ t1 t2 : List RegEvent, startsFor u (t1 ++ t2) = startsFor u t1 + startsFor u t2 := by
  intro t1 t2
  induction t1 with
  | nil => simp [startsFor]
  | cons ev tr ih => simp [startsFor, ih]; omega

theorem stopsFor_append (u : UserName) :
    ∀ t1 t2 : List RegEvent, stopsFor u (t1 ++ t2) = stopsFor u t1 + stopsFor u t2 := by
  intro t1 t2
  induction t1 with
  | nil => simp [stopsFor]
  | cons ev tr ih => simp [stopsFor, ih]; omega

theorem startsFor_started (u : UserName) :
    startsFor u [RegEvent.watcherStarted u] = 1 := by simp [startsFor]

theorem startsFor_started_ne (u v : UserName) (h : v ≠ u) :
    startsFor v [RegEvent.watcherStarted u] = 0 := by
  simp [startsFor, Ne.symm h]

theorem stopsFor_started (u v : UserName) :
    stopsFor v [RegEvent.watcherStarted u] = 0 := by simp [stopsFor]

theorem startsFor_stopped (u v : UserName) :
    startsFor v [RegEvent.watcherStopped u] = 0 := by simp [startsFor]

theorem stopsFor_stopped (u : UserName) :
    stopsFor u [RegEvent.watcherStopped u] = 1 := by simp [stopsFor]

theorem stopsFor_stopped_ne (u v : UserName) (h : v ≠ u) :
    stopsFor v [RegEvent.watcherStopped u] = 0 := by
  simp [stopsFor, Ne.symm h]

theorem watcherCount_insertUser_self (m : List (UserName × ProxiedDirRec))
    (u : UserName) (r : ProxiedDirRec) :
    watcherCount (insertUser m u r) u = if r.hasWatcher then 1 else 0 := by
  unfold watcherCount
  rw [lookupUser_insertUser_self]

theorem watcherCount_insertUser_ne (m : List (UserName × ProxiedDirRec))
    (u v : UserName) (r : ProxiedDirRec) (h : v ≠ u) :
    watcherCount (insertUser m u r) v = watcherCount m v := by
  unfold watcherCount
  rw [lookupUser_insertUser_ne u v r h]

theorem lookupUser_map (g : ProxiedDirRec → ProxiedDirRec) (v : UserName) :
    ∀ m : List (UserName × ProxiedDirRec),
      lookupUser (m.map (fun q => (q.1, g q.2))) v = (lookupUser m v).map g := by
  intro m
  induction m with
  | nil => simp [lookupUser]
  | cons hd rest ih =>
    rcases hd with ⟨w, r⟩
    by_cases h : w = v
    · simp [lookupUser, h]
    · simp [lookupUser, h, ih]

theorem startsFor_stops_trace (v : UserName) :
    ∀ m : List (UserName × ProxiedDirRec),
      startsFor v (m.filterMap
        (fun q => if q.2.hasWatcher then some (RegEvent.watcherStopped q.1) else none)) = 0 := by
  intro m
  induction m with
  | nil => simp [startsFor]
  | cons hd rest ih =>
    rw [List.filterMap_cons]
    by_cases hw : hd.2.hasWatcher = true
    · simp only [hw, if_true]
      simp [startsFor, ih]
    · simp only [hw, if_false]
      simpa using ih

theorem stopsFor_stops_trace_notmem (v : UserName) :
    ∀ m : List (UserName × ProxiedDirRec), (∀ b ∈ m, b.1 ≠ v) →
      stopsFor v (m.filterMap
        (fun q => if q.2.hasWatcher then some (RegEvent.watcherStopped q.1) else none)) = 0 := by
  intro m
  induction m with
  | nil => intro _; simp [stopsFor]
  | cons hd rest ih =>
    intro hmem
    rw [List.filterMap_cons]
    have hrest := ih (fun b hb => hmem b (List.mem_cons_of_mem _ hb))
    have hne : hd.1 ≠ v := hmem hd (List.mem_cons_self _ _)
    by_cases hw : hd.2.hasWatcher = true
    · simp only [hw, if_true]
      simp [stopsFor, hrest, hne]
    · simp only [hw, if_false]
      simpa using hrest

theorem stopsFor_stops_trace (v : UserName) :
    ∀ m : List (UserName × ProxiedDirRec), keysOK m →
      stopsFor v (m.filterMap
        (fun q => if q.2.hasWatcher then some (RegEvent.watcherStopped q.1) else none))
        = watcherCount m v := by
  intro m
  induction m with
  | nil => intro _; simp [stopsFor, watcherCount, lookupUser]
  | cons hd rest ih =>
    intro hOK
    rcases hd with ⟨w, r⟩
    have hOK2 : List.Pairwise (fun a b => a.1 ≠ b.1) ((w, r) :: rest) := hOK
    rcases List.pairwise_cons.mp hOK2 with ⟨hhd, htl⟩
    have hrec := ih htl
    rw [List.filterMap_cons]
    by_cases hv : w = v
    · subst hv
      have hz : stopsFor w (rest.filterMap
          (fun q => if q.2.hasWatcher = true then some (RegEvent.watcherStopped q.1) else none)) = 0 :=
        stopsFor_stops_trace_notmem w rest (fun b hb => (hhd b hb).symm)
      by_cases hw : r.hasWatcher = true
      · simp only [hw, if_true]
        simp [stopsFor, hz, watcherCount, lookupUser, hw]
      · simp only [hw, if_false]
        simp [hz, watcherCount, lookupUser, hw]
    · by_cases hw : r.hasWatcher = true
      · simp only [hw, if_true]
        simp [stopsFor, hv, hrec, watcherCount, lookupUser]
      · simp only [hw, if_false]
        simp [hv, hrec, watcherCount, lookupUser]

theorem closeAll_spec :
    ∀ (m : List (UserName × ProxiedDirRec)) (tr : List RegEvent),
      closeAll tr m
        = (m.map (fun q => (q.1, clearWatcher q.2)),
           tr ++ m.filterMap
             (fun q => if q.2.hasWatcher then some (RegEvent.watcherStopped q.1) else none)) := by
  intro m
  induction m with
  | nil => intro tr; simp [closeAll]
  | cons hd rest ih =>
    intro tr
    rcases hd with ⟨u, r⟩
    unfold closeAll dirClose
    by_cases hw : r.hasWatcher
    · simp only [hw, if_true, List.filterMap_cons]
      rw [ih (tr ++ [RegEvent.watcherStopped u])]
      simp [hw, clearWatcher]
    · simp only [hw, if_false, List.filterMap_cons, Bool.false_eq_true, not_false_iff]
      rw [ih tr]
      have hcr : clearWatcher r = r := by
        rcases r with ⟨a, b, c, d⟩
        simp at hw
        simp [clearWatcher, hw]
      simp [hw, hcr]

theorem proxyForFinish_WF (now : Timestamp) (p : RegistryState) (u : UserName)
    (d : ProxiedDirRec) (tr : List RegEvent)
    (hkeys : keysOK p.m)
    (hmid : ∀ v, startsFor v tr = stopsFor v tr +
      (if v = u then (if d.hasWatcher then 1 else 0) else watcherCount p.m v)) :
    RegWF (proxyForFinish now p u d tr) := by
  rcases d with ⟨dep, dat, dor, dhw⟩
  unfold proxyForFinish
  cases dhw with
  | true =>
    simp only [if_true]
    refine ⟨keysOK_insertUser u _ p.m hkeys, ?_⟩
    intro v
    show startsFor v tr = stopsFor v tr + watcherCount (insertUser p.m u _) v
    by_cases hv : v = u
    · subst hv
      rw [watcherCount_insertUser_self]
      have := hmid v
      simp only [if_pos rfl] at this ⊢
      simpa using this
    · rw [watcherCount_insertUser_ne p.m u v _ hv]
      have := hmid v
      simpa [hv] using this
  | false =>
    simp only [Bool.false_eq_true, if_false]
    refine ⟨keysOK_insertUser u _ p.m hkeys, ?_⟩
    intro v
    show startsFor v (tr ++ [RegEvent.watcherStarted u])
      = stopsFor v (tr ++ [RegEvent.watcherStarted u]) + watcherCount (insertUser p.m u _) v
    by_cases hv : v = u
    · subst hv
      rw [watcherCount_insertUser_self, startsFor_append, stopsFor_append,
        startsFor_started, stopsFor_started]
      have := hmid v
      simp only [if_pos rfl, eq_self_iff_true, if_true, Bool.false_eq_true, if_false] at this
      simp only [if_pos rfl, eq_self_iff_true, if_true]
      omega
    · rw [watcherCount_insertUser_ne p.m u v _ hv, startsFor_append, stopsFor_append,
        startsFor_started_ne u v hv, stopsFor_started]
      have := hmid v
      simp only [hv, if_false] at this
      omega

theorem proxyFor_WF (parse : PathName → Option UserName) (now : Timestamp)
    (p : RegistryState) (name : PathName) (ep : Endpoint) (h : RegWF p) :
    RegWF (proxyFor parse now p name ep) := by
  rcases h with ⟨hkeys, htr⟩
  unfold proxyFor
  split
  · exact ⟨hkeys, htr⟩
  · split
    next => exact ⟨hkeys, htr⟩
    next u hp =>
      split
      next d hl =>
        split
        next hep =>
          split
          next d1 tr1 heq =>
            rcases d with ⟨dep, dat, dor, dhw⟩
            unfold dirClose at heq
            cases dhw with
            | true =>
              simp only [if_true] at heq
              cases heq
              apply proxyForFinish_WF now p u _ _ hkeys
              intro v
              by_cases hv : v = u
              · subst hv
                rw [startsFor_append, stopsFor_append, startsFor_stopped, stopsFor_stopped]
                have := htr v
                unfold watcherCount at this
                rw [hl] at this
                simp at this ⊢
                omega
              · rw [startsFor_append, stopsFor_append, startsFor_stopped,
                  stopsFor_stopped_ne u v hv]
                have := htr v
                simp only [hv, if_false]
                omega
            | false =>
              simp only [Bool.false_eq_true, if_false] at heq
              cases heq
              apply proxyForFinish_WF now p u _ _ hkeys
              intro v
              by_cases hv : v = u
              · subst hv
                have := htr v
                unfold watcherCount at this
                rw [hl] at this
                simp at this ⊢
                omega
              · have := htr v
                simp only [hv, if_false]
                omega
        next hep =>
          apply proxyForFinish_WF now p u d p.trace hkeys
          intro v
          by_cases hv : v = u
          · subst hv
            have := htr v
            unfold watcherCount at this
            rw [hl] at this
            simp at this ⊢
            omega
          · have := htr v
            simp only [hv, if_false]
            omega
      next hl =>
        apply proxyForFinish_WF now p u _ p.trace hkeys
        intro v
        by_cases hv : v = u
        · subst hv
          have := htr v
          unfold watcherCount at this
          rw [hl] at this
          simp at this ⊢
          omega
        · have := htr v
          simp only [hv, if_false]
          omega

theorem setOrder_WF (parse : PathName → Option UserName) (p : RegistryState)
    (name : PathName) (ord : Int) (h : RegWF p) :
    RegWF (setOrder parse p name ord) := by
  rcases h with ⟨hkeys, htr⟩
  unfold setOrder
  split
  · exact ⟨hkeys, htr⟩
  · split
    next => exact ⟨hkeys, htr⟩
    next u hp =>
      refine ⟨keysOK_insertUser u _ p.m hkeys, ?_⟩
      intro v
      show startsFor v p.trace = stopsFor v p.trace + watcherCount (insertUser p.m u _) v
      by_cases hv : v = u
      · subst hv
        rw [watcherCount_insertUser_self]
        have := htr v
        unfold watcherCount at this
        cases hl : lookupUser p.m v with
        | some d =>
          rw [hl] at this
          simp at this ⊢
          omega
        | none =>
          rw [hl] at this
          simp at this ⊢
          omega
      · rw [watcherCount_insertUser_ne p.m u v _ hv]
        exact htr v

theorem proxiedDirsClose_WF (p : RegistryState) (h : RegWF p) :
    RegWF (proxiedDirsClose p) := by
  rcases h with ⟨hkeys, htr⟩
  unfold proxiedDirsClose
  split
  · exact ⟨hkeys, htr⟩
  · rw [closeAll_spec]
    constructor
    · show List.Pairwise _ (p.m.map _)
      rw [List.pairwise_map]
      exact hkeys
    · intro v
      show startsFor v (p.trace ++ _) = stopsFor v (p.trace ++ _) + watcherCount (p.m.map _) v
      rw [startsFor_append, stopsFor_append, startsFor_stops_trace,
        stopsFor_stops_trace v p.m hkeys]
      have hz : watcherCount (p.m.map (fun q => (q.1, clearWatcher q.2))) v = 0 := by
        unfold watcherCount
        rw [lookupUser_map clearWatcher v p.m]
        cases lookupUser p.m v <;> simp [clearWatcher]
      rw [hz]
      have := htr v
      omega

theorem irrelevant_eq_not_specRelevant (c : Collaborators) (e : Event) :
    irrelevant c e = !specRelevant c e := by
  unfold irrelevant specRelevant
  cases hA : c.isAccessFile e.entry.name
  · cases hE : c.lruHas { name := e.entry.name, glob := false }
    · by_cases hD : c.dropPathOne e.entry.name = e.entry.name
      · simp [hD]
      · cases hG : c.lruHas { name := c.dropPathOne e.entry.name, glob := true } <;>
          simp [hD, hG]
    · simp
  · simp

theorem handleEvent_none_eq (c : Collaborators) (u : UserName) (s : ProxiedDirState)
    (e : Event) (he : e.error = none) :
    handleEvent c u s e =
      (let s1 := if s.order = -1 then { s with clog := wipeLog s.clog u } else s
       if irrelevant c e then (s1, none)
       else
         ({ s1 with
            order := e.order,
            clog := flush (logRequestWithOrder s1.clog
              (if e.delete then Request.deleteReq else Request.lookupReq)
              e.entry.name e.order) }, none)) := by
  unfold handleEvent
  rw [he]

/-- Claim C3, as amended.  For an error-free event the filter's decision
agrees exactly with the claim's relevance condition (Access file, exact
non-glob cache entry, or glob cache entry for the one-level parent when the
name has one); an irrelevant event returns no error and leaves the cursor
unchanged and appends nothing, and when the cursor is not the reread
sentinel -1 it leaves the whole state unchanged; when the cursor is -1 the
only effect is the wipe of the user's logged state. -/
theorem event_filter_classification (c : Collaborators) (u : UserName)
    (s : ProxiedDirState) (e : Event) (he : e.error = none) :
    (irrelevant c e = false ↔ specRelevant c e = true)
    ∧ (irrelevant c e = true →
        (handleEvent c u s e).2 = none
        ∧ (handleEvent c u s e).1.order = s.order
        ∧ (handleEvent c u s e).1.clog
            = (if s.order = -1 then ClogOp.wipe u :: s.clog else s.clog)
        ∧ (s.order ≠ -1 → handleEvent c u s e = (s, none))) := by
  constructor
  · rw [irrelevant_eq_not_specRelevant]
    cases specRelevant c e <;> simp
  · intro hr
    rw [handleEvent_none_eq c u s e he]
    simp only [hr, if_true]
    by_cases ho : s.order = -1
    · simp [ho, wipeLog]
    · simp [ho]

/-- Claim C3 counterexample: with the cursor at the reread sentinel -1, an
event the filter classifies as irrelevant (and which the claim's own
relevance condition classifies as irrelevant) still changes the change-log
state: the user's logged state is wiped.  The claim's "an irrelevant event
leaves the cursor, the change log, and the cache unchanged" is false here. -/
theorem irrelevant_event_wipe_cex :
    irrelevant c0 e0 = true
    ∧ specRelevant c0 e0 = false
    ∧ e0.error = none
    ∧ (handleEvent c0 "alice@x" s0 e0).2 = none
    ∧ (handleEvent c0 "alice@x" s0 e0).1.clog ≠ s0.clog := by
  decide

/-- Witness for the amended C3 at a concrete irrelevant event with a
non-sentinel cursor: the state passes through untouched. -/
theorem event_filter_classification_wit :
    handleEvent c0 "alice@x" s1 e0 = (s1, none) := by
  have h := event_filter_classification c0 "alice@x" s1 e0 rfl
  exact (h.2 rfl).2.2.2 (by decide)

/-- Claim C4: a relevant error-free event sets the record's cursor to the
event's order, appends exactly one change-log request (deleteReq when the
delete flag is set, lookupReq otherwise) tagged with the event's order,
and flushes the log after the append and before returning; the retry
interval is untouched. -/
theorem relevant_event_effects (c : Collaborators) (u : UserName)
    (s : ProxiedDirState) (e : Event) (he : e.error = none)
    (hr : irrelevant c e = false) :
    (handleEvent c u s e).2 = none
    ∧ (handleEvent c u s e).1.order = e.order
    ∧ (handleEvent c u s e).1.clog
        = ClogOp.flushOp
            :: ClogOp.append (if e.delete then Request.deleteReq else Request.lookupReq)
                e.entry.name e.order
            :: (if s.order = -1 then ClogOp.wipe u :: s.clog else s.clog)
    ∧ (handleEvent c u s e).1.retryInterval = s.retryInterval := by
  rw [handleEvent_none_eq c u s e he]
  simp only [hr, Bool.false_eq_true, if_false]
  by_cases ho : s.order = -1
  · simp [ho, wipeLog, flush, logRequestWithOrder]
  · simp [ho, flush, logRequestWithOrder]

/-- Witness for C4: a concrete relevant event (an Access file) with cursor
42 appends one lookupReq tagged 42 and flushes. -/
theorem relevant_event_effects_wit :
    (handleEvent c1 "alice@x" s1 e1).2 = none
    ∧ (handleEvent c1 "alice@x" s1 e1).1.order = 42
    ∧ (handleEvent c1 "alice@x" s1 e1).1.clog
        = [ClogOp.flushOp, ClogOp.append Request.lookupReq "alice@x/foo" 42] := by
  have h := relevant_event_effects c1 "alice@x" s1 e1 rfl rfl
  refine ⟨h.1, ?_, ?_⟩
  · rw [h.2.1]
    decide
  · rw [h.2.2.1]
    decide

/-- Claim C7: an event carrying an error makes handleEvent return exactly
that error with the state unchanged (no wipe, no cursor update, no append,
no flush), and the session terminates with that error. -/
theorem event_error_terminal (c : Collaborators) (u : UserName)
    (s : ProxiedDirState) (e : Event) (err : GoError) (rest : List Event)
    (fin : StreamEnd) (h : e.error = some err) :
    handleEvent c u s e = (s, some err)
    ∧ watchEvents c u s (e :: rest) fin = (s, some err)
    ∧ (watch c u s (SessionScript.streamed (e :: rest) fin)).2 = some err := by
  have h1 : ∀ s' : ProxiedDirState, handleEvent c u s' e = (s', some err) := by
    intro s'
    unfold handleEvent
    rw [h]
  refine ⟨h1 s, ?_, ?_⟩
  · unfold watchEvents
    rw [h1 s]
  · unfold watch watchEvents
    rw [h1 { s with retryInterval := initialRetryInterval }]

/-- Witness for C7 at a concrete error event. -/
theorem event_error_terminal_wit :
    handleEvent c0 "alice@x" s1 e2 = (s1, some (GoError.err "permission denied"))
    ∧ (watch c0 "alice@x" s1 (SessionScript.streamed [e2] StreamEnd.dieSignal)).2
        = some (GoError.err "permission denied") := by
  have h := event_error_terminal c0 "alice@x" s1 e2 (GoError.err "permission denied")
    [] StreamEnd.dieSignal rfl
  exact ⟨h.1, h.2.2⟩

/-- Claim C10: while the cursor is the reread sentinel -1, every
error-free event wipes the user's logged state, including events that are
then classified as irrelevant and otherwise ignored; an irrelevant event
leaves the cursor at -1 (so the wipe repeats on the next event), and a
relevant one advances the cursor to the event's order after the wipe. -/
theorem reread_wipe_every_event (c : Collaborators) (u : UserName)
    (s : ProxiedDirState) (e : Event) (h1 : s.order = -1) (h2 : e.error = none) :
    (irrelevant c e = true →
        handleEvent c u s e = ({ s with clog := ClogOp.wipe u :: s.clog }, none))
    ∧ (irrelevant c e = false →
        (handleEvent c u s e).1.order = e.order
        ∧ (handleEvent c u s e).1.clog
            = ClogOp.flushOp
                :: ClogOp.append (if e.delete then Request.deleteReq else Request.lookupReq)
                    e.entry.name e.order
                :: ClogOp.wipe u :: s.clog) := by
  constructor
  · intro hr
    rw [handleEvent_none_eq c u s e h2]
    simp [hr, h1, wipeLog]
  · intro hr
    have h := relevant_event_effects c u s e h2 hr
    refine ⟨h.2.1, ?_⟩
    rw [h.2.2.1]
    simp [h1]

/-- Witness for C10: a concrete irrelevant error-free event at cursor -1
wipes and leaves the cursor at -1. -/
theorem reread_wipe_every_event_wit :
    handleEvent c0 "alice@x" s0 e0 = ({ s0 with clog := ClogOp.wipe "alice@x" :: s0.clog }, none) := by
  exact (reread_wipe_every_event c0 "alice@x" s0 e0 rfl rfl).1 (by decide)

theorem watcherInit_retryInterval (s : ProxiedDirState) :
    (watcherInit s).retryInterval = initialRetryInterval := by
  unfold watcherInit
  split <;> rfl

theorem map_backoff_zero_add (k : Nat) :
    (List.range k).map (fun i => backoffSeq (0 + i)) = (List.range k).map backoffSeq := by
  have h : (fun i => backoffSeq (0 + i)) = backoffSeq := by
    funext i
    rw [Nat.zero_add]
  rw [h]

/-- Claim C2: across consecutive sessions that fail before establishing,
the sleep intervals taken are backoffSeq 0, backoffSeq 1, ... — that is
10 s, 20 s, 40 s, 60 s, 60 s, ... — and the interval is reset to the
initial 10 s exactly when the Watch call succeeds: a streamed session
leaves retryInterval at the initial value no matter how it later ends,
while bind and Watch failures (merely attempted subscriptions) leave the
state, and hence the interval, completely unchanged. -/
theorem retry_backoff_sequence (c : Collaborators) (u : UserName)
    (s s' : ProxiedDirState) (k : Nat) (msg : String) (evs : List Event)
    (fin : StreamEnd) (e : GoError) :
    (watcher c u s (List.replicate k (SessionScript.bindFail (GoError.err msg)))).2.1
        = (List.range k).map backoffSeq
    ∧ [backoffSeq 0, backoffSeq 1, backoffSeq 2, backoffSeq 3, backoffSeq 4]
        = [10 * second, 20 * second, 40 * second, 60 * second, 60 * second]
    ∧ (watch c u s' (SessionScript.streamed evs fin)).1.retryInterval = initialRetryInterval
    ∧ watch c u s' (SessionScript.bindFail e) = (s', some e)
    ∧ watch c u s' (SessionScript.watchFail e) = (s', some e) := by
  refine ⟨?_, by decide, ?_, rfl, rfl⟩
  · unfold watcher
    have hj : (watcherInit s).retryInterval = backoffSeq 0 := by
      rw [watcherInit_retryInterval, backoffSeq_zero]
    have h := (watcherLoop_bindFail c u msg k 0 (watcherInit s) [] hj).1
    rw [h]
    simp only [List.reverse_nil, List.nil_append]
    exact map_backoff_zero_add k
  · unfold watch
    rw [watchEvents_retryInterval]

/-- Claim C1 (refutation evidence, recorded as a code bug): the watcher
loop consults die only inside an established session's select, and its
retry sleep is a plain uncancellable time.Sleep.  So with die already
closed, n consecutive bind failures drive n full sleeps of at least the
initial 10 s each — at least n * initialRetryInterval in total, unbounded
in n — and the loop is still running afterwards; whereas a session that
does establish observes die and exits cleanly.  The claimed bound of one
retry interval plus one event round-trip therefore fails, and with it
bounded closure of dying. -/
theorem watcher_retries_ignore_die (c : Collaborators) (u : UserName)
    (s : ProxiedDirState) (n : Nat) (msg : String) :
    (watcher c u s (List.replicate n (SessionScript.bindFail (GoError.err msg)))).2.2
        = LoopExit.ranOut
    ∧ (watcher c u s (List.replicate n (SessionScript.bindFail (GoError.err msg)))).2.1.length
        = n
    ∧ n * initialRetryInterval
        ≤ ((watcher c u s (List.replicate n (SessionScript.bindFail (GoError.err msg)))).2.1).sum
    ∧ (watcher c u s [SessionScript.streamed [] StreamEnd.dieSignal]).2.2
        = LoopExit.cleanExit := by
  have hj : (watcherInit s).retryInterval = backoffSeq 0 := by
    rw [watcherInit_retryInterval, backoffSeq_zero]
  have h := watcherLoop_bindFail c u msg n 0 (watcherInit s) [] hj
  unfold watcher
  rw [h.1]
  simp only [List.reverse_nil, List.nil_append, map_backoff_zero_add n]
  refine ⟨h.2, by simp, sum_backoff_ge n, rfl⟩

/-- Claim C6: the watcher sets the cursor to the reread sentinel -1 in
exactly two places — on entry when the cursor is 0, and between sessions
when the session's error message contains "cannot read log at order" (the
reset thus lands before the next session starts); in every other case the
cursor passes through untouched, and neither place touches the retry
interval or the change log. -/
theorem reread_sentinel_conditions (s : ProxiedDirState) (err : GoError) :
    ((watcherInit s).order = -1 ↔ (s.order = 0 ∨ s.order = -1))
    ∧ ((watcherInit s).order = s.order ∨ s.order = 0)
    ∧ (watcherInit s).retryInterval = initialRetryInterval
    ∧ ((watcherOnError s err).order = -1 ↔
        (strContains err.message "cannot read log at order" = true ∨ s.order = -1))
    ∧ ((watcherOnError s err).order = s.order
        ∨ strContains err.message "cannot read log at order" = true)
    ∧ (watcherOnError s err).retryInterval = s.retryInterval
    ∧ (watcherOnError s err).clog = s.clog := by
  refine ⟨?_, ?_, watcherInit_retryInterval s, ?_, ?_,
    watcherOnError_retryInterval s err, watcherOnError_clog s err⟩
  · unfold watcherInit
    by_cases h0 : s.order = 0 <;> simp [h0]
  · unfold watcherInit
    by_cases h0 : s.order = 0 <;> simp [h0]
  · unfold watcherOnError
    by_cases hc : strContains err.message "cannot read log at order" = true <;> simp [hc]
  · unfold watcherOnError
    by_cases hc : strContains err.message "cannot read log at order" = true <;> simp [hc]

/-- Claim C8, as amended: when the Registry is NOT closing, every
proxyFor call with a parseable path stamps the located or newly created
record's atime with the current time, whether or not the endpoint changed
or a watcher was already running; when the Registry is closing, proxyFor
returns before touching anything. -/
theorem proxyFor_updates_atime (parse : PathName → Option UserName)
    (now : Timestamp) (p : RegistryState) (name : PathName) (ep : Endpoint)
    (u : UserName) (hc : p.closing = false) (hp : parse name = some u) :
    (lookupUser (proxyFor parse now p name ep).m u).map ProxiedDirRec.atime = some now := by
  have hfin : ∀ (d : ProxiedDirRec) (tr : List RegEvent),
      (lookupUser (proxyForFinish now p u d tr).m u).map ProxiedDirRec.atime = some now := by
    intro d tr
    unfold proxyForFinish
    simp only []
    split <;> simp [lookupUser_insertUser_self]
  have hc' : ¬(p.closing = true) := by rw [hc]; simp
  unfold proxyFor
  rw [if_neg hc', hp]
  simp only []
  split
  next d hl =>
    split
    · exact hfin _ _
    · exact hfin _ _
  next hl => exact hfin _ _

/-- Claim C8 counterexample: with the Registry closing, a proxyFor call
with a perfectly parseable path is a complete no-op — the record for the
user keeps its old atime 0 instead of the current time 5 — refuting
"regardless of ... the Registry is closing". -/
theorem proxyFor_closing_skips_atime_cex :
    pC.closing = true
    ∧ parse0 "alice@x/foo" = some "alice@x"
    ∧ proxyFor parse0 5 pC "alice@x/foo" "E1" = pC
    ∧ (lookupUser pC.m "alice@x").map ProxiedDirRec.atime = some 0 := by
  decide

/-- Witness for the amended C8: on an open registry the new record's
atime is the supplied clock reading. -/
theorem proxyFor_updates_atime_wit :
    (lookupUser (proxyFor parse0 5 reg0 "alice@x/foo" "E1").m "alice@x").map
      ProxiedDirRec.atime = some 5 :=
  proxyFor_updates_atime parse0 5 reg0 "alice@x/foo" "E1" "alice@x" rfl rfl

/-- Claim C9: once the Registry's closing flag is set — in particular
after proxiedDirsClose — setOrder returns immediately: no record is
created or modified, so cursors recorded after shutdown are dropped. -/
theorem setOrder_noop_after_close (parse : PathName → Option UserName)
    (p : RegistryState) (name : PathName) (ord : Int) :
    (p.closing = true → setOrder parse p name ord = p)
    ∧ setOrder parse (proxiedDirsClose p) name ord = proxiedDirsClose p := by
  have h1 : ∀ q : RegistryState, q.closing = true → setOrder parse q name ord = q := by
    intro q hq
    unfold setOrder
    rw [if_pos hq]
  refine ⟨h1 p, ?_⟩
  apply h1
  unfold proxiedDirsClose
  split
  next hq => exact hq
  next => rfl

/-- Witness for C9 at a concrete closing registry and path. -/
theorem setOrder_noop_after_close_wit :
    setOrder parse0 pC "bob@y/f" 7 = pC :=
  (setOrder_noop_after_close parse0 pC "bob@y/f" 7).1 rfl

/-- Claim C5: the registry runs at most one watcher per user.  Under the
mutex-atomic step semantics: well-formedness — each user's started events
exceed its stopped events by the watchers recorded as running, which is
never more than one — is preserved by proxyFor, setOrder and close; and in
the endpoint-change scenario proxyFor(p, ep1) then proxyFor(p, ep2) with
ep1 ≠ ep2, the second call's trace shows the first watcher's dying
handshake (watcherStopped) strictly before the new watcher's start. -/
theorem single_watcher_per_user (parse : PathName → Option UserName)
    (now now2 : Timestamp) (p : RegistryState) (name : PathName)
    (ep ep2 : Endpoint) (ord : Int) (u : UserName) (h : RegWF p) :
    RegWF (proxyFor parse now p name ep)
    ∧ RegWF (setOrder parse p name ord)
    ∧ RegWF (proxiedDirsClose p)
    ∧ watcherCount p.m u ≤ 1
    ∧ startsFor u p.trace ≤ stopsFor u p.trace + 1
    ∧ (parse name = some u → p.closing = false → lookupUser p.m u = none → ep ≠ ep2 →
        (proxyFor parse now p name ep).trace = p.trace ++ [RegEvent.watcherStarted u]
        ∧ (proxyFor parse now2 (proxyFor parse now p name ep) name ep2).trace
            = p.trace ++ [RegEvent.watcherStarted u, RegEvent.watcherStopped u,
                RegEvent.watcherStarted u]) := by
  have hwc : watcherCount p.m u ≤ 1 := by
    unfold watcherCount
    cases lookupUser p.m u with
    | some r => simp only []; split <;> omega
    | none => simp only []; omega
  refine ⟨proxyFor_WF parse now p name ep h, setOrder_WF parse p name ord h,
    proxiedDirsClose_WF p h, hwc, ?_, ?_⟩
  · have := h.2 u
    omega
  · intro hp hc hl hne
    have hc' : ¬(p.closing = true) := by rw [hc]; simp
    set q := proxyFor parse now p name ep with hqdef
    have e1 : q = proxyForFinish now p u
        { ep := ep, atime := 0, order := 0, hasWatcher := false } p.trace := by
      rw [hqdef]
      unfold proxyFor
      rw [if_neg hc', hp]
      simp only []
      rw [hl]
    have e1t : q.trace = p.trace ++ [RegEvent.watcherStarted u] := by
      rw [e1]; rfl
    have hc1 : ¬(q.closing = true) := by
      rw [e1]
      show ¬(p.closing = true)
      exact hc'
    have hl1 : lookupUser q.m u
        = some { ep := ep, atime := now, order := 0, hasWatcher := true } := by
      rw [e1]
      show lookupUser (insertUser p.m u _) u = _
      exact lookupUser_insertUser_self u _ p.m
    have e2 : proxyFor parse now2 q name ep2
        = proxyForFinish now2 q u
            { ep := ep2, atime := now, order := 0, hasWatcher := false }
            (q.trace ++ [RegEvent.watcherStopped u]) := by
      unfold proxyFor
      rw [if_neg hc1, hp]
      simp only []
      rw [hl1]
      simp only []
      rw [if_pos hne]
      rfl
    refine ⟨e1t, ?_⟩
    rw [e2]
    show (q.trace ++ [RegEvent.watcherStopped u]) ++ [RegEvent.watcherStarted u]
        = p.trace ++ [RegEvent.watcherStarted u, RegEvent.watcherStopped u,
            RegEvent.watcherStarted u]
    rw [e1t]
    simp

/-- Witness for C5: from the empty registry, registering alice@x at E1 and
then at E2 produces the trace start, stop, start — the old watcher's
handshake completes before the new one starts. -/
theorem single_watcher_per_user_wit :
    (proxyFor parse0 2 (proxyFor parse0 1 reg0 "alice@x/foo" "E1") "alice@x/foo" "E2").trace
      = [RegEvent.watcherStarted "alice@x", RegEvent.watcherStopped "alice@x",
         RegEvent.watcherStarted "alice@x"] := by
  have h := single_watcher_per_user parse0 1 2 reg0 "alice@x/foo" "E1" "E2" 0 "alice@x"
    ⟨List.Pairwise.nil, fun v => rfl⟩
  have h2 := (h.2.2.2.2.2 rfl rfl rfl (by decide)).2
  simpa using h2
